import Mathlib

/-!
Verification development for the header-generation script of the
ghidra-directx-data repository (src/generate.py).

The script is embedded shallowly:

* Python strings are modelled as `List Char` (named `Str` below);
* the three `re.sub` calls of `process_source` (lines 80 to 87) are modelled
  by an explicit backtracking matcher for the one non-literal pattern
  (`__asm__ .*\(.*\);`, where `.` does not match a newline and both stars are
  greedy) and by literal leftmost non-overlapping replacement for the two
  patterns that are plain literals (`(__int128)` and `(\.0f16)`);
* the `__main__` block (lines 98 to 137) is modelled as a pure function of
  the command line and of the results of the three compiler invocations,
  returning the exit kind, the printed lines, the files written (with their
  contents at process exit), and the final content of the list object that
  the global name MINGW_OPTIONS points to.

Recursions that consume a computed number of characters are written with an
explicit fuel argument (first parameter, always instantiated with the length
of the scanned list) so that every definition is structural and evaluates
inside the kernel.
-/

set_option maxRecDepth 20000

/-- Python strings are modelled as lists of characters. -/
abbrev Str := List Char

/-- Coercion from Lean string literals to the model type. -/
def str (s : String) : Str := s.toList

/-- Test whether the literal pattern `p` is matched at the start of `s`,
comparing character by character, exactly like a regex literal match at one
start position. -/
def litMatch : Str → Str → Bool
  | [], _ => true
  | _ :: _, [] => false
  | p :: ps, c :: cs => p == c && litMatch ps cs

/-- Test whether the literal pattern occurs at some position of `s`
(the scan a regex search performs for a literal pattern). -/
def containsLit (pat : Str) : Str → Bool
  | [] => litMatch pat []
  | c :: rest => litMatch pat (c :: rest) || containsLit pat rest

/-- Backtracking matcher for the regex fragment `.*\);` with a greedy star
whose dot does not match a newline: at each character the star first tries to
consume it and only on failure of the rest does `\);` get tried at the
current position.  Returns the number of characters of the (unique, greedy)
match, or `none`. -/
def matchClose : Str → Option Nat
  | [] => none
  | c :: rest =>
    if c = '\n' then none
    else
      match matchClose rest with
      | some n => some (n + 1)
      | none =>
        if c = ')' then
          match rest with
          | ';' :: _ => some 2
          | _ => none
        else none

/-- Backtracking matcher for the regex fragment `.*\(.*\);` (greedy stars,
dot excludes newline), in the same style as `matchClose`. -/
def matchMid : Str → Option Nat
  | [] => none
  | c :: rest =>
    if c = '\n' then none
    else
      match matchMid rest with
      | some n => some (n + 1)
      | none =>
        if c = '(' then
          match matchClose rest with
          | some m => some (m + 1)
          | none => none
        else none

/-- The fixed prefix of the inline-assembly pattern: the regex at line 82 of
src/generate.py is the literal `__asm__ ` (keyword plus one space) followed
by `.*\(.*\);`. -/
def asmKey : Str := str "__asm__ "

/-- Replacement text of the inline-assembly substitution (line 82). -/
def asmRepl : Str := str "(void)123; /* GHIDRA: Removed __asm__ statement */"

/-- One pass of `re.sub` for the pattern `__asm__ .*\(.*\);`: scan left to
right, at each position try the whole pattern, on a match emit the
replacement and continue after the matched span, otherwise emit the
character and move on.  The fuel argument is decremented once per emitted
item; fuel equal to the length of the scanned list always suffices, and
running out of fuel returns the remaining input unchanged. -/
def subAsmF : Nat → Str → Str
  | _, [] => []
  | 0, s => s
  | fuel + 1, c :: rest =>
    if litMatch asmKey (c :: rest) then
      match matchMid (rest.drop 7) with
      | some n => asmRepl ++ subAsmF fuel (rest.drop (7 + n))
      | none => c :: subAsmF fuel rest
    else c :: subAsmF fuel rest

/-- Model of `re.sub(r'__asm__ .*\(.*\);', ..., source)` at line 82. -/
def subAsm (s : Str) : Str := subAsmF s.length s

/-- One pass of `re.sub` for a literal pattern `pat`: leftmost,
non-overlapping, scanning continues right after each replaced span.  Fuel as
in `subAsmF`. -/
def replaceLitF (pat repl : Str) : Nat → Str → Str
  | _, [] => []
  | 0, s => s
  | fuel + 1, c :: rest =>
    if litMatch pat (c :: rest) then
      repl ++ replaceLitF pat repl fuel ((c :: rest).drop pat.length)
    else c :: replaceLitF pat repl fuel rest

/-- Model of `re.sub` with a literal pattern (lines 84 and 86 use the
patterns `(__int128)` and `(\.0f16)`, which match literally; the replacement
strings contain no backreferences). -/
def replaceLit (pat repl s : Str) : Str := replaceLitF pat repl s.length s

/-- Literal content of the pattern `(__int128)` at line 84. -/
def int128Pat : Str := str "__int128"

/-- Replacement text of the `__int128` substitution (line 84). -/
def int128Repl : Str := str "long /* GHIDRA: Removed __int128 */"

/-- Literal content of the pattern `(\.0f16)` at line 86. -/
def f16Pat : Str := str ".0f16"

/-- Replacement text of the float16 substitution (line 86). -/
def f16Repl : Str := str ".0f /* GHIDRA: Removed f16 */"

/-- Model of `process_source` (lines 80 to 87 of src/generate.py): the three
substitutions applied in source order. -/
def process_source (source : Str) : Str :=
  replaceLit f16Pat f16Repl (replaceLit int128Pat int128Repl (subAsm source))

example : process_source (str "__asm__ (\"nop\");") = asmRepl := by decide

example : process_source (str "int x; __int128 y;")
    = str "int x; long /* GHIDRA: Removed __int128 */ y;" := by decide

example : process_source (str "float f = 1.0f16;")
    = str "float f = 1.0f /* GHIDRA: Removed f16 */;" := by decide

example : process_source (str "__asm__(\"nop\");") = str "__asm__(\"nop\");" := by
  decide

example : process_source (str "__asm__ (\"a\"); x(\"b\");") = asmRepl := by decide

/-- Lines 10 to 16 of src/generate.py: additional flags for MinGW headers. -/
def MINGW_OPTIONS : List Str :=
  [str "-DCONST=\"const\"",
   str "-D__restrict__=\"\"",
   str "-D__always_inline__=\"inline\"",
   str "-D__gnu_inline__=\"inline\"",
   str "-D__builtin_va_list=\"void *\""]

/-- Lines 19 to 33: default options from generic_clib_32.prf. -/
def DEFAULT_OPTIONS_32 : List Str :=
  [str "-D_X86_",
   str "-D__STDC__",
   str "-D_GNU_SOURCE",
   str "-D__WORDSIZE=32",
   str "-D__builtin_va_list=void *",
   str "-D__DO_NOT_DEFINE_COMPILE",
   str "-D_Complex",
   str "-D__NO_STRING_INLINES",
   str "-D__NO_LONG_DOUBLE_MATH",
   str "-D__signed__",
   str "-D__extension__=\"\"",
   str "-D__GLIBC_HAVE_LONG_LONG=1",
   str "-Daligned_u64=uint64_t"]

/-- Lines 36 to 50: default options from generic_clib_64.prf. -/
def DEFAULT_OPTIONS_64 : List Str :=
  [str "-D_X86_",
   str "-D__STDC__",
   str "-D_GNU_SOURCE",
   str "-D__WORDSIZE=64",
   str "-D__builtin_va_list=void *",
   str "-D__DO_NOT_DEFINE_COMPILE",
   str "-D_Complex",
   str "-D__NO_STRING_INLINES",
   str "-D__signed__",
   str "-D__extension__=\"\"",
   str "-D__GLIBC_HAVE_LONG_LONG=1",
   str "-D__need_sigset_t",
   str "-Daligned_u64=uint64_t"]

/-- Lines 53 to 56: default GCC flags. -/
def GCC_FLAGS : List Str := [str "-std=c99", str "-I."]

/-- Lines 59 to 72: the fixed prologue written before the flattened header
(the braces of the struct definition are written with their character codes
here, with no change of content). -/
def DEFAULT_SOURCE : Str :=
  str "\n// This file was generated by https://github.com/hkva/ghidra-directx-data\n\n// BEGIN MANUAL DEFINITIONS\n\ntypedef struct _Float16 \x7b\n    float m[16];\n\x7d _Float16;\n\ntypedef unsigned short __bf16;\n\n// END MANUAL DEFINITIONS\n\n"

/-- Result of one subprocess invocation of the cross compiler: its exit
status and the two captured streams.  The model takes these as inputs, the
script obtains them from `p.communicate` at line 91. -/
structure GccResult where
  returncode : Int
  s_out : Str
  s_err : Str
  deriving DecidableEq

/-- Message printed by `run_gcc` when the compiler fails (line 93). -/
def gccFailMsg (e : Str) : Str := str "GCC command failed: " ++ e

/-- Model of `run_gcc` (lines 89 to 95): on a non-zero exit status the error
message is printed and the whole process exits with status 1 (modelled as
the error case); otherwise the selected stream is returned. -/
def run_gcc (r : GccResult) (capture_stderr : Bool) : Except Str Str :=
  if r.returncode ≠ 0 then .error (gccFailMsg r.s_err)
  else .ok (if capture_stderr then r.s_err else r.s_out)

/-- Line 111: which cross compiler is invoked for each architecture. -/
def gccCmdFor (a_arch : Str) : Str :=
  if a_arch = str "64" then str "x86_64-w64-mingw32-gcc"
  else str "i686-w64-mingw32-gcc"

/-- Line 124: the conditional expression selecting the default-macro table,
written in the source as `DEFAULT_OPTIONS_64 if a_arch == 'x64' else
DEFAULT_OPTIONS_32`. -/
def selectDefaultOptions (a_arch : Str) : List Str :=
  if a_arch = str "x64" then DEFAULT_OPTIONS_64 else DEFAULT_OPTIONS_32

/-- Whitespace recognised by the Python `str.strip()` method for ASCII
text. -/
def isSpaceChar (c : Char) : Bool :=
  c = ' ' || c = '\t' || c = '\n' || c = '\r' || c = '\x0b' || c = '\x0c'

/-- Model of `str.strip()`: remove leading and trailing whitespace. -/
def pyStrip (s : Str) : Str :=
  ((s.dropWhile isSpaceChar).reverse.dropWhile isSpaceChar).reverse

/-- Model of `list.index`: position of the first element equal to the
argument, `none` where Python raises ValueError. -/
def firstIdx (x : Str) : List Str → Option Nat
  | [] => none
  | y :: ys => if y = x then some 0 else (firstIdx x ys).map (· + 1)

/-- The first marker line searched at line 129. -/
def incBeginMark : Str := str "#include <...> search starts here:"

/-- The second marker line searched at line 129. -/
def incEndMark : Str := str "End of search list."

/-- Model of line 129: the include flags are built from the slice of the
verbose output strictly between the first occurrences of the two marker
lines, each line stripped and prefixed with `-I`.  Returns `none` where the
Python `list.index` call raises ValueError (a marker line missing). -/
def includeFlagsOf (out : List Str) : Option (List Str) :=
  match firstIdx incBeginMark out, firstIdx incEndMark out with
  | some i, some j =>
    some (((out.drop (i + 1)).take (j - (i + 1))).map (fun l => str "-I" ++ pyStrip l))
  | _, _ => none

/-- The literal prefix of the macro-line regex `#define ([^ ]*) (.*)` used
at line 133. -/
def defineKey : Str := str "#define "

/-- Model of `re.search(r'#define ([^ ]*) (.*)', i)`: at each start position
the literal `#define ` must match, then the first group takes the maximal
run of non-space characters, then one space must follow, and the second
group takes the rest of the line.  If the position fails the search moves to
the next start position; `none` models a search that returns None. -/
def findDefine : Str → Option (Str × Str)
  | [] => none
  | c :: rest =>
    if litMatch defineKey (c :: rest) then
      match (c :: rest).drop 8 |>.dropWhile (fun x => x ≠ ' ') with
      | ' ' :: v => some (((c :: rest).drop 8).takeWhile (fun x => x ≠ ' '), v)
      | _ => findDefine rest
    else findDefine rest

/-- The define flag emitted at line 134 for one matched macro line. -/
def flagOfDefine (n v : Str) : Str :=
  str "-D" ++ n ++ str "=\"" ++ v ++ str "\""

/-- Model of the loop at lines 132 to 134: every line is searched with the
macro regex and the match object is subscripted without a None check, so a
non-matching line raises an unhandled TypeError.  The result pairs the flags
appended before any failure with a flag telling whether the whole loop ran
without raising. -/
def dumpDefines : List Str → List Str × Bool
  | [] => ([], true)
  | l :: ls =>
    match findDefine l with
    | none => ([], false)
    | some (n, v) =>
      let r := dumpDefines ls
      (flagOfDefine n v :: r.1, r.2)

/-- Model of `str.splitlines` for text whose line separator is the newline
character (the separator the compiler emits): accumulator-based scan. -/
def splitLinesAux (cur : Str) : Str → List Str
  | [] => if cur = [] then [] else [cur.reverse]
  | '\n' :: rest => cur.reverse :: splitLinesAux [] rest
  | c :: rest => splitLinesAux (c :: cur) rest

/-- Model of `str.splitlines` (no trailing empty line for trailing newline,
empty input gives no lines). -/
def splitLines (s : Str) : List Str := splitLinesAux [] s

/-- One flag per line, as written by the loop at lines 136 to 137. -/
def joinLines (ls : List Str) : Str :=
  ls.foldr (fun l acc => l ++ ['\n'] ++ acc) []

example : splitLines (str "a\nb\n") = [str "a", str "b"] := by decide

example : findDefine (str "#define A 1") = some (str "A", str "1") := by decide

example : findDefine (str "#define NAME") = none := by decide

example : findDefine [] = none := by decide

/-- How the process ends: normal completion (exit status 0), an explicit
`exit(1)` after a printed diagnostic, or an unhandled exception (non-zero
exit with a traceback instead of a clean message). -/
inductive ExitKind where
  | success
  | failure
  | crashed
  deriving DecidableEq

/-- Observable result of one run of the script: the exit kind, the lines
printed by `print` calls, the files on disk at process exit (name and
content, in creation order; the with-statement flushes buffered writes even
when `exit(1)` or an exception unwinds through it), and the final content of
the list object bound to the global name MINGW_OPTIONS. -/
structure Outcome where
  exitKind : ExitKind
  printed : List Str
  files : List (Str × Str)
  mingw : List Str
  deriving DecidableEq

/-- The usage message of line 100. -/
def usageMsg (argv0 : Str) : Str :=
  str "Usage: " ++ argv0 ++ str " <target> <32|64>"

/-- The architecture error message of line 107. -/
def archErrMsg : Str := str "Architecture must be either 32 or 64"

/-- The progress message of line 109. -/
def genMsg (a_name a_arch : Str) : Str :=
  str "Generating profile " ++ a_name ++ str " (" ++ a_arch ++ str "-bit)"

/-- The progress message of line 114. -/
def processingMsg : Str := str "Processing sources..."

/-- The progress message of line 121. -/
def optionsMsg : Str := str "Generating parser options..."

/-- Model of the `__main__` block (lines 98 to 137).  The three compiler
invocations are inputs: `rPE` for the preprocessing run of line 117, `rInc`
for the verbose run of line 128, `rMac` for the macro-dump run of line 131.

Two points of Python semantics the translation makes explicit:

* line 116 writes the prologue into the header file before line 117 invokes
  the compiler, so when that invocation fails the header file already exists
  and holds the prologue (flushed when the with-statement closes the file
  during the SystemExit unwind);
* line 123 binds `opts` to the list object MINGW_OPTIONS points to, and the
  following `opts += ...` and `opts.append(...)` calls extend that same
  object in place, so the `mingw` field of the outcome grows step by step
  along the option-generation path. -/
def mainModel (argv : List Str) (rPE rInc rMac : GccResult) : Outcome :=
  if argv.length ≠ 3 then
    ⟨.failure, [usageMsg (argv.headD [])], [], MINGW_OPTIONS⟩
  else
    let a_name := (argv.drop 1).headD []
    let a_arch := (argv.drop 2).headD []
    if a_arch ≠ str "32" ∧ a_arch ≠ str "64" then
      ⟨.failure, [archErrMsg], [], MINGW_OPTIONS⟩
    else
      let p1 := [genMsg a_name a_arch, processingMsg]
      let hname := a_name ++ str "_" ++ a_arch ++ str ".h"
      match run_gcc rPE false with
      | .error msg =>
        ⟨.failure, p1 ++ [msg], [(hname, DEFAULT_SOURCE)], MINGW_OPTIONS⟩
      | .ok out =>
        let hcontent := DEFAULT_SOURCE ++ process_source out
        let oname := a_name ++ str "_" ++ a_arch ++ str "_parser_options.txt"
        let p2 := p1 ++ [optionsMsg]
        let opts1 := MINGW_OPTIONS ++ selectDefaultOptions a_arch
        match run_gcc rInc true with
        | .error msg =>
          ⟨.failure, p2 ++ [msg], [(hname, hcontent), (oname, [])], opts1⟩
        | .ok vout =>
          match includeFlagsOf (splitLines vout) with
          | none =>
            ⟨.crashed, p2, [(hname, hcontent), (oname, [])], opts1⟩
          | some incs =>
            let opts2 := opts1 ++ incs
            match run_gcc rMac false with
            | .error msg =>
              ⟨.failure, p2 ++ [msg], [(hname, hcontent), (oname, [])], opts2⟩
            | .ok mout =>
              let r := dumpDefines (splitLines mout)
              let opts3 := opts2 ++ r.1
              if r.2 then
                ⟨.success, p2, [(hname, hcontent), (oname, joinLines opts3)], opts3⟩
              else
                ⟨.crashed, p2, [(hname, hcontent), (oname, [])], opts3⟩

/-! Basic facts about literal matching and literal occurrence. -/

theorem litMatch_append_self (p t : Str) : litMatch p (p ++ t) = true := by
  induction p with
  | nil => rfl
  | cons p0 ps ih => simp [litMatch, ih]

theorem litMatch_iff (p s : Str) : litMatch p s = true ↔ ∃ t, s = p ++ t := by
  constructor
  · intro h
    induction p generalizing s with
    | nil => exact ⟨s, rfl⟩
    | cons p0 ps ih =>
      cases s with
      | nil => simp [litMatch] at h
      | cons c cs =>
        simp only [litMatch, Bool.and_eq_true, beq_iff_eq] at h
        obtain ⟨t, ht⟩ := ih cs h.2
        exact ⟨t, by simp [h.1, ht]⟩
  · rintro ⟨t, rfl⟩
    exact litMatch_append_self p t

theorem litMatch_of_append (p q s : Str) (h : litMatch (p ++ q) s = true) :
    litMatch p s = true := by
  obtain ⟨t, rfl⟩ := (litMatch_iff _ _).1 h
  rw [List.append_assoc]
  exact litMatch_append_self p (q ++ t)

theorem litMatch_append_left (p x y : Str) (h : p.length ≤ x.length) :
    litMatch p (x ++ y) = litMatch p x := by
  induction p generalizing x with
  | nil => rfl
  | cons p0 ps ih =>
    cases x with
    | nil => simp at h
    | cons c cs =>
      show (p0 == c && litMatch ps (cs ++ y)) = (p0 == c && litMatch ps cs)
      rw [ih cs (by simpa using h)]

theorem containsLit_nil_pat (z : Str) : containsLit [] z = true := by
  cases z <;> simp [containsLit, litMatch]

theorem containsLit_of_litMatch (p s : Str) (h : litMatch p s = true) :
    containsLit p s = true := by
  cases s with
  | nil => exact h
  | cons c r => simp [containsLit, h]

theorem containsLit_append_right (p x y : Str) (h : containsLit p y = true) :
    containsLit p (x ++ y) = true := by
  induction x with
  | nil => exact h
  | cons c x' ih => simp [containsLit, ih]

theorem containsLit_append_left (p x y : Str) (h : containsLit p x = true) :
    containsLit p (x ++ y) = true := by
  induction x with
  | nil =>
    have hp : p = [] := by
      cases p with
      | nil => rfl
      | cons p0 ps => simp [containsLit, litMatch] at h
    rw [hp]
    exact containsLit_nil_pat _
  | cons c x' ih =>
    simp only [containsLit, Bool.or_eq_true] at h
    rcases h with h | h
    · obtain ⟨t, ht⟩ := (litMatch_iff _ _).1 h
      have hm : litMatch p ((c :: x') ++ y) = true := by
        rw [ht, List.append_assoc]
        exact litMatch_append_self p (t ++ y)
      exact containsLit_of_litMatch _ _ hm
    · simp [containsLit, ih h]

theorem containsLit_of_drop (p a : Str) (i : Nat)
    (h : litMatch p (a.drop i) = true) : containsLit p a = true := by
  induction a generalizing i with
  | nil => simpa using h
  | cons c a' ih =>
    cases i with
    | zero =>
      rw [List.drop_zero] at h
      exact containsLit_of_litMatch _ _ h
    | succ i' => simp [containsLit, ih i' (by simpa using h)]

theorem containsLit_sub (p q s : Str) (h : containsLit (p ++ q) s = true) :
    containsLit p s = true := by
  induction s with
  | nil =>
    have : p ++ q = [] := by
      cases hpq : p ++ q with
      | nil => rfl
      | cons a b => rw [hpq] at h; simp [containsLit, litMatch] at h
    rw [List.append_eq_nil] at this
    rw [this.1]
    exact containsLit_nil_pat _
  | cons c r ih =>
    simp only [containsLit, Bool.or_eq_true] at h ⊢
    rcases h with h | h
    · exact Or.inl (litMatch_of_append _ _ _ h)
    · exact Or.inr (ih h)

theorem mem_of_prefix_long (c0 : Char) (x y p t : Str)
    (he : x ++ c0 :: y = p ++ t) (hl : x.length < p.length) : c0 ∈ p := by
  have h1 : List.take p.length (x ++ c0 :: y) = p := by
    rw [he]
    exact List.take_left p t
  rw [List.take_append_eq_append_take,
    List.take_of_length_le (Nat.le_of_lt hl)] at h1
  have hk : p.length - x.length = (p.length - x.length - 1) + 1 := by omega
  rw [← h1, hk, List.take_succ_cons]
  simp

theorem notContains_append_nl (p x y : Str) (hnl : '\n' ∉ p)
    (hx : containsLit p x = false) (hy : containsLit p y = false) :
    containsLit p (x ++ '\n' :: y) = false := by
  induction x with
  | nil =>
    cases p with
    | nil => simp [containsLit_nil_pat] at hy
    | cons p0 ps =>
      have hp0 : p0 ≠ '\n' := fun h => hnl (h ▸ List.mem_cons_self p0 ps)
      simp only [List.nil_append, containsLit, litMatch, Bool.or_eq_false_iff,
        Bool.and_eq_false_iff]
      exact ⟨Or.inl (by simpa using hp0), hy⟩
  | cons c x' ih =>
    simp only [containsLit, Bool.or_eq_false_iff] at hx
    have hrest := ih hx.2
    show (litMatch p (c :: (x' ++ '\n' :: y)) || containsLit p (x' ++ '\n' :: y))
        = false
    rw [hrest, Bool.or_false]
    by_contra hmm
    rw [Bool.not_eq_false] at hmm
    obtain ⟨t, ht⟩ := (litMatch_iff _ _).1 hmm
    by_cases hlen : p.length ≤ (c :: x').length
    · have heq : litMatch p ((c :: x') ++ '\n' :: y) = litMatch p (c :: x') :=
        litMatch_append_left p (c :: x') ('\n' :: y) hlen
      have hcx : litMatch p (c :: x') = true := by
        rw [← heq]
        exact hmm
      rw [hx.1] at hcx
      exact Bool.false_ne_true hcx
    · push_neg at hlen
      have ht' : (c :: x') ++ '\n' :: y = p ++ t := ht
      exact hnl (mem_of_prefix_long '\n' (c :: x') y p t ht' hlen)

/-! Equation lemmas for the fuel-based scanners, and the facts that a scan
with no matching position is the identity, that a prefix free of matching
positions is copied unchanged, and that an occurrence surviving a matched
prefix can be peeled off. -/

theorem replaceLitF_nil (pat repl : Str) (fuel : Nat) :
    replaceLitF pat repl fuel [] = [] := by
  cases fuel <;> rfl

theorem replaceLitF_zero (pat repl : Str) (s : Str) :
    replaceLitF pat repl 0 s = s := by
  cases s <;> rfl

theorem replaceLitF_succ (pat repl : Str) (fuel : Nat) (c : Char) (rest : Str) :
    replaceLitF pat repl (fuel + 1) (c :: rest)
      = if litMatch pat (c :: rest) then
          repl ++ replaceLitF pat repl fuel ((c :: rest).drop pat.length)
        else c :: replaceLitF pat repl fuel rest := rfl

theorem subAsmF_nil (fuel : Nat) : subAsmF fuel [] = [] := by
  cases fuel <;> rfl

theorem subAsmF_zero (s : Str) : subAsmF 0 s = s := by
  cases s <;> rfl

theorem subAsmF_succ (fuel : Nat) (c : Char) (rest : Str) :
    subAsmF (fuel + 1) (c :: rest)
      = if litMatch asmKey (c :: rest) then
          match matchMid (rest.drop 7) with
          | some n => asmRepl ++ subAsmF fuel (rest.drop (7 + n))
          | none => c :: subAsmF fuel rest
        else c :: subAsmF fuel rest := rfl

theorem replaceLitF_id (pat repl : Str) (fuel : Nat) (s : Str)
    (h : containsLit pat s = false) : replaceLitF pat repl fuel s = s := by
  induction s generalizing fuel with
  | nil => exact replaceLitF_nil pat repl fuel
  | cons c rest ih =>
    cases fuel with
    | zero => exact replaceLitF_zero pat repl _
    | succ f =>
      simp only [containsLit, Bool.or_eq_false_iff] at h
      rw [replaceLitF_succ, if_neg (by simp [h.1]), ih f h.2]

theorem subAsmF_id (fuel : Nat) (s : Str) (h : containsLit asmKey s = false) :
    subAsmF fuel s = s := by
  induction s generalizing fuel with
  | nil => exact subAsmF_nil fuel
  | cons c rest ih =>
    cases fuel with
    | zero => exact subAsmF_zero _
    | succ f =>
      simp only [containsLit, Bool.or_eq_false_iff] at h
      rw [subAsmF_succ, if_neg (by simp [h.1]), ih f h.2]

theorem subAsmF_skip (a t : Str) :
    ∀ fuel : Nat, (a ++ t).length ≤ fuel →
      (∀ i, i < a.length → litMatch asmKey ((a ++ t).drop i) = false) →
      subAsmF fuel (a ++ t) = a ++ subAsmF (fuel - a.length) t := by
  induction a with
  | nil =>
    intro fuel _ _
    simp
  | cons c a' ih =>
    intro fuel hf H
    cases fuel with
    | zero =>
      exfalso
      simp at hf
    | succ f =>
      have h0 : litMatch asmKey (c :: (a' ++ t)) = false := by
        have := H 0 (by simp)
        simpa using this
      show subAsmF (f + 1) (c :: (a' ++ t)) = _
      rw [subAsmF_succ, if_neg (by simp [h0])]
      have hf' : (a' ++ t).length ≤ f := by
        simp only [List.cons_append, List.length_cons] at hf
        omega
      have H' : ∀ i, i < a'.length → litMatch asmKey ((a' ++ t).drop i) = false := by
        intro i hi
        have := H (i + 1) (by simp; omega)
        simpa using this
      rw [ih f hf' H']
      simp [Nat.succ_sub_succ]

theorem replaceLitF_skip (pat repl a t : Str) :
    ∀ fuel : Nat, (a ++ t).length ≤ fuel →
      (∀ i, i < a.length → litMatch pat ((a ++ t).drop i) = false) →
      replaceLitF pat repl fuel (a ++ t)
        = a ++ replaceLitF pat repl (fuel - a.length) t := by
  induction a with
  | nil =>
    intro fuel _ _
    simp
  | cons c a' ih =>
    intro fuel hf H
    cases fuel with
    | zero =>
      exfalso
      simp at hf
    | succ f =>
      have h0 : litMatch pat (c :: (a' ++ t)) = false := by
        have := H 0 (by simp)
        simpa using this
      show replaceLitF pat repl (f + 1) (c :: (a' ++ t)) = _
      rw [replaceLitF_succ, if_neg (by simp [h0])]
      have hf' : (a' ++ t).length ≤ f := by
        simp only [List.cons_append, List.length_cons] at hf
        omega
      have H' : ∀ i, i < a'.length → litMatch pat ((a' ++ t).drop i) = false := by
        intro i hi
        have := H (i + 1) (by simp; omega)
        simpa using this
      rw [ih f hf' H']
      simp [Nat.succ_sub_succ]

theorem containsLit_peel (T : Str) :
    ∀ q z : Str,
      (∀ i, i < q.length → ∀ w : Str, litMatch T (q.drop i ++ w) = false) →
      containsLit T (q ++ z) = true → containsLit T z = true := by
  intro q
  induction q with
  | nil =>
    intro z _ h
    exact h
  | cons c q' ih =>
    intro z Hq h
    have h0 : litMatch T (c :: (q' ++ z)) = false := by
      have := Hq 0 (by simp) z
      simpa using this
    have h' : containsLit T (q' ++ z) = true := by
      have hh : (litMatch T (c :: (q' ++ z)) || containsLit T (q' ++ z)) = true := h
      rw [h0] at hh
      simpa using hh
    exact ih z (fun i hi w => by
      have := Hq (i + 1) (by simp; omega) w
      simpa using this) h'

/-! Two facts about one replacement pass over a text containing a marked
occurrence.  In both, `Hstart` and `Hd` say that no pattern match can begin
inside the protected span, and `Hpeel` says that no occurrence of the
protected string can begin strictly inside the pattern; both are checked by
computation at the concrete instantiations used below. -/

theorem replace_preserves (p r T : Str) (hp : p ≠ []) (hT : T ≠ [])
    (Hstart : ∀ i, i < T.length → ∀ w : Str, litMatch p (T.drop i ++ w) = false)
    (Hpeel : ∀ i, 0 < i → i < p.length → ∀ w : Str,
      litMatch T (p.drop i ++ w) = false) :
    ∀ (fuel : Nat) (t : Str), t.length ≤ fuel → containsLit T t = true →
      containsLit T (replaceLitF p r fuel t) = true := by
  intro fuel
  induction fuel with
  | zero =>
    intro t ht hc
    have hnil : t = [] := by
      cases t with
      | nil => rfl
      | cons a b => simp at ht
    subst hnil
    exfalso
    cases T with
    | nil => exact hT rfl
    | cons a b => simp [containsLit, litMatch] at hc
  | succ f ih =>
    intro t ht hc
    cases t with
    | nil =>
      exfalso
      cases T with
      | nil => exact hT rfl
      | cons a b => simp [containsLit, litMatch] at hc
    | cons c rest =>
      by_cases hM : litMatch T (c :: rest) = true
      · obtain ⟨z, hz⟩ := (litMatch_iff _ _).1 hM
        rw [hz]
        have hlen : (T ++ z).length ≤ f + 1 := by rw [← hz]; exact ht
        have Hsk : ∀ i, i < T.length → litMatch p ((T ++ z).drop i) = false := by
          intro i hi
          rw [List.drop_append_of_le_length (Nat.le_of_lt hi)]
          exact Hstart i hi z
        rw [replaceLitF_skip p r T z (f + 1) hlen Hsk]
        exact containsLit_of_litMatch _ _ (litMatch_append_self T _)
      · have hcrest : containsLit T rest = true := by
          have hh : (litMatch T (c :: rest) || containsLit T rest) = true := hc
          rw [Bool.not_eq_true] at hM
          rw [hM] at hh
          simpa using hh
        by_cases hp2 : litMatch p (c :: rest) = true
        · obtain ⟨z, hz⟩ := (litMatch_iff _ _).1 hp2
          cases p with
          | nil => exact absurd rfl hp
          | cons p0 ps =>
            have hr' : rest = ps ++ z := by
              have hz2 := hz
              rw [List.cons_append] at hz2
              injection hz2 with h1 h2
            have hcz : containsLit T z = true := by
              rw [hr'] at hcrest
              refine containsLit_peel T ps z (fun i hi w => ?_) hcrest
              have := Hpeel (i + 1) (by omega) (by simp; omega) w
              simpa using this
            rw [replaceLitF_succ, if_pos hp2]
            have hdrop : (c :: rest).drop (p0 :: ps).length = z := by
              rw [hz]
              exact List.drop_left _ _
            rw [hdrop]
            have hzlen : z.length ≤ f := by
              have h1 : (c :: rest).length = (p0 :: ps).length + z.length := by
                rw [hz, List.length_append]
              simp only [List.length_cons] at h1 ht
              omega
            exact containsLit_append_right T r _ (ih z hzlen hcz)
        · rw [replaceLitF_succ, if_neg hp2]
          have hrl : rest.length ≤ f := by
            simp only [List.length_cons] at ht
            omega
          have hrec := ih rest hrl hcrest
          show (litMatch T (c :: replaceLitF p r f rest)
            || containsLit T (replaceLitF p r f rest)) = true
          rw [hrec]
          simp

theorem replace_marks (p r d : Str) (hp : p ≠ [])
    (Hd : ∀ i, i < d.length → ∀ w : Str, litMatch p (d.drop i ++ w) = false)
    (Hpeel : ∀ i, 0 < i → i < p.length → ∀ w : Str,
      litMatch (d ++ p) (p.drop i ++ w) = false) :
    ∀ (fuel : Nat) (t : Str), t.length ≤ fuel → containsLit (d ++ p) t = true →
      containsLit (d ++ r) (replaceLitF p r fuel t) = true := by
  have hdp : d ++ p ≠ [] := by
    intro h
    exact hp (List.append_eq_nil.1 h).2
  intro fuel
  induction fuel with
  | zero =>
    intro t ht hc
    have hnil : t = [] := by
      cases t with
      | nil => rfl
      | cons a b => simp at ht
    subst hnil
    exfalso
    cases hdp' : d ++ p with
    | nil => exact hdp hdp'
    | cons a b => rw [hdp'] at hc; simp [containsLit, litMatch] at hc
  | succ f ih =>
    intro t ht hc
    cases t with
    | nil =>
      exfalso
      cases hdp' : d ++ p with
      | nil => exact hdp hdp'
      | cons a b => rw [hdp'] at hc; simp [containsLit, litMatch] at hc
    | cons c rest =>
      by_cases hM : litMatch (d ++ p) (c :: rest) = true
      · obtain ⟨z, hz⟩ := (litMatch_iff _ _).1 hM
        rw [hz, List.append_assoc]
        have hlen : (d ++ (p ++ z)).length ≤ f + 1 := by
          rw [← List.append_assoc, ← hz]
          exact ht
        have Hsk : ∀ i, i < d.length → litMatch p ((d ++ (p ++ z)).drop i) = false := by
          intro i hi
          rw [List.drop_append_of_le_length (Nat.le_of_lt hi)]
          exact Hd i hi (p ++ z)
        rw [replaceLitF_skip p r d (p ++ z) (f + 1) hlen Hsk]
        have hpz : (p ++ z).length ≤ f + 1 - d.length := by
          simp only [List.length_append] at hlen ⊢
          omega
        obtain ⟨g, hg⟩ : ∃ g, f + 1 - d.length = g + 1 := by
          have hppos : 0 < p.length := List.length_pos.2 hp
          simp only [List.length_append] at hpz
          exact ⟨f + 1 - d.length - 1, by omega⟩
        rw [hg]
        cases p with
        | nil => exact absurd rfl hp
        | cons p0 ps =>
          show containsLit (d ++ r)
            (d ++ replaceLitF (p0 :: ps) r (g + 1) (p0 :: (ps ++ z))) = true
          rw [replaceLitF_succ, if_pos (show litMatch (p0 :: ps) (p0 :: (ps ++ z))
            = true from litMatch_append_self (p0 :: ps) z)]
          have hdr : (p0 :: (ps ++ z)).drop (p0 :: ps).length = z := by
            show ((p0 :: ps) ++ z).drop (p0 :: ps).length = z
            exact List.drop_left _ _
          rw [hdr, ← List.append_assoc]
          exact containsLit_of_litMatch _ _ (litMatch_append_self (d ++ r) _)
      · have hcrest : containsLit (d ++ p) rest = true := by
          have hh : (litMatch (d ++ p) (c :: rest) || containsLit (d ++ p) rest)
              = true := hc
          rw [Bool.not_eq_true] at hM
          rw [hM] at hh
          simpa using hh
        by_cases hp2 : litMatch p (c :: rest) = true
        · obtain ⟨z, hz⟩ := (litMatch_iff _ _).1 hp2
          cases p with
          | nil => exact absurd rfl hp
          | cons p0 ps =>
            have hr' : rest = ps ++ z := by
              have hz2 := hz
              rw [List.cons_append] at hz2
              injection hz2 with h1 h2
            have hcz : containsLit (d ++ (p0 :: ps)) z = true := by
              rw [hr'] at hcrest
              refine containsLit_peel (d ++ (p0 :: ps)) ps z (fun i hi w => ?_) hcrest
              have := Hpeel (i + 1) (by omega) (by simp; omega) w
              simpa using this
            rw [replaceLitF_succ, if_pos hp2]
            have hdrop : (c :: rest).drop (p0 :: ps).length = z := by
              rw [hz]
              exact List.drop_left _ _
            rw [hdrop]
            have hzlen : z.length ≤ f := by
              have h1 : (c :: rest).length = (p0 :: ps).length + z.length := by
                rw [hz, List.length_append]
              simp only [List.length_cons] at h1 ht
              omega
            exact containsLit_append_right _ r _ (ih z hzlen hcz)
        · rw [replaceLitF_succ, if_neg hp2]
          have hrl : rest.length ≤ f := by
            simp only [List.length_cons] at ht
            omega
          have hrec := ih rest hrl hcrest
          show (litMatch (d ++ r) (c :: replaceLitF p r f rest)
            || containsLit (d ++ r) (replaceLitF p r f rest)) = true
          rw [hrec]
          simp

/-! Helper facts for the option-generator models. -/

theorem takeWhile_append_all (p : Char → Bool) (n z : Str)
    (h : ∀ c ∈ n, p c = true) :
    List.takeWhile p (n ++ z) = n ++ List.takeWhile p z := by
  induction n with
  | nil => rfl
  | cons a n2 ih =>
    have hrest := ih fun c hc => h c (List.mem_cons_of_mem a hc)
    simp [List.takeWhile_cons, h a (List.mem_cons_self a n2), hrest]

theorem dropWhile_append_all (p : Char → Bool) (n z : Str)
    (h : ∀ c ∈ n, p c = true) :
    List.dropWhile p (n ++ z) = List.dropWhile p z := by
  induction n with
  | nil => rfl
  | cons a n2 ih =>
    have hrest := ih fun c hc => h c (List.mem_cons_of_mem a hc)
    simp [List.dropWhile_cons, h a (List.mem_cons_self a n2), hrest]

theorem findDefine_cons (c : Char) (rest : Str) :
    findDefine (c :: rest)
      = if litMatch defineKey (c :: rest) then
          match (c :: rest).drop 8 |>.dropWhile (fun x => x ≠ ' ') with
          | ' ' :: v => some (((c :: rest).drop 8).takeWhile (fun x => x ≠ ' '), v)
          | _ => findDefine rest
        else findDefine rest := rfl

theorem dumpDefines_cons (l : Str) (ls : List Str) :
    dumpDefines (l :: ls)
      = match findDefine l with
        | none => ([], false)
        | some (n, v) =>
          (flagOfDefine n v :: (dumpDefines ls).1, (dumpDefines ls).2) := rfl

theorem findDefine_of_shape (n v : Str) (h : ' ' ∉ n) :
    findDefine (defineKey ++ (n ++ ' ' :: v)) = some (n, v) := by
  have hall : ∀ c ∈ n, (fun x => decide (x ≠ ' ')) c = true := by
    intro c hc
    simp only [decide_eq_true_eq]
    exact fun e => h (e ▸ hc)
  have e1 : defineKey ++ (n ++ ' ' :: v)
      = '#' :: (str "define " ++ (n ++ ' ' :: v)) := rfl
  rw [e1, findDefine_cons,
    if_pos (show litMatch defineKey ('#' :: (str "define " ++ (n ++ ' ' :: v)))
      = true from litMatch_append_self defineKey (n ++ ' ' :: v))]
  have e2 : ('#' :: (str "define " ++ (n ++ ' ' :: v))).drop 8 = n ++ ' ' :: v := rfl
  rw [e2, dropWhile_append_all _ n (' ' :: v) hall,
    takeWhile_append_all _ n (' ' :: v) hall]
  have e3 : List.dropWhile (fun x => decide (x ≠ ' ')) (' ' :: v) = ' ' :: v := rfl
  have e4 : List.takeWhile (fun x => decide (x ≠ ' ')) (' ' :: v) = [] := rfl
  rw [e3, e4, List.append_nil]
  rfl

theorem firstIdx_cons_self (x : Str) (ys : List Str) :
    firstIdx x (x :: ys) = some 0 := by
  simp [firstIdx]

theorem firstIdx_append_of_not_mem (x : Str) (pre ys : List Str) (h : x ∉ pre) :
    firstIdx x (pre ++ ys) = (firstIdx x ys).map (· + pre.length) := by
  induction pre with
  | nil =>
    cases hfi : firstIdx x ys <;> simp [hfi]
  | cons y pre' ih =>
    have hyx : y ≠ x := fun e => h (by simp [e])
    simp only [List.cons_append, firstIdx, if_neg hyx, List.append_eq]
    rw [ih (fun hm => h (by simp [hm]))]
    cases hfi : firstIdx x ys <;> simp [Nat.add_assoc]

/-! Occurrence-freedom of a concatenation whose pieces are separated by
newlines, for a pattern free of newline characters. -/

theorem notContains_glue (p : Str) (hnl : '\n' ∉ p) (aa R bb : Str)
    (hA : aa = [] ∨ ∃ a2, aa = a2 ++ ['\n'])
    (hB : bb = [] ∨ ∃ b2, bb = '\n' :: b2)
    (h1 : containsLit p aa = false) (h2 : containsLit p R = false)
    (h3 : containsLit p bb = false) :
    containsLit p (aa ++ R ++ bb) = false := by
  have hmid : containsLit p (R ++ bb) = false := by
    rcases hB with rfl | ⟨b2, rfl⟩
    · simpa using h2
    · have h3' : containsLit p b2 = false := by
        have hh : (litMatch p ('\n' :: b2) || containsLit p b2) = false := h3
        simp only [Bool.or_eq_false_iff] at hh
        exact hh.2
      exact notContains_append_nl p R b2 hnl h2 h3'
  rcases hA with rfl | ⟨a2, rfl⟩
  · simpa using hmid
  · have h1' : containsLit p a2 = false := by
      by_contra hc
      rw [Bool.not_eq_false] at hc
      have hup := containsLit_append_left p a2 ['\n'] hc
      rw [h1] at hup
      exact Bool.false_ne_true hup
    have hfin := notContains_append_nl p a2 (R ++ bb) hnl h1' hmid
    have heq : (a2 ++ ['\n']) ++ R ++ bb = a2 ++ '\n' :: (R ++ bb) := by simp
    rw [heq]
    exact hfin

/-! The claims. -/

/-- Claim C2, counterexample: process_source is not idempotent.  The
replacement text of the `__int128` rule itself contains the substring
`__int128`, so the second application re-replaces inside the marker
comment. -/
theorem C2_counterexample :
    process_source (process_source (str "__int128"))
      ≠ process_source (str "__int128") := by decide

/-- Claim C2, amended: process_source is idempotent on inputs that contain
none of the three trigger substrings (the keyword-plus-space `__asm__ `,
`__int128`, `.0f16`); on such inputs it is the identity, so a second
application changes nothing.  Unrestricted idempotence is refuted by the
counterexample. -/
theorem C2_idempotent_on_trigger_free (s : Str)
    (h1 : containsLit asmKey s = false)
    (h2 : containsLit int128Pat s = false)
    (h3 : containsLit f16Pat s = false) :
    process_source (process_source s) = process_source s := by
  have e1 : subAsm s = s := subAsmF_id s.length s h1
  have e2 : replaceLit int128Pat int128Repl s = s :=
    replaceLitF_id int128Pat int128Repl s.length s h2
  have e3 : replaceLit f16Pat f16Repl s = s :=
    replaceLitF_id f16Pat f16Repl s.length s h3
  have hid : process_source s = s := by
    show replaceLit f16Pat f16Repl (replaceLit int128Pat int128Repl (subAsm s)) = s
    rw [e1, e2, e3]
  rw [hid]
  exact hid

/-- Claim C2 witness: a concrete trigger-free input on which the amended
idempotence holds. -/
theorem C2_witness :
    containsLit asmKey (str "int main(void);") = false
    ∧ containsLit int128Pat (str "int main(void);") = false
    ∧ containsLit f16Pat (str "int main(void);") = false
    ∧ process_source (process_source (str "int main(void);"))
        = process_source (str "int main(void);") :=
  ⟨by decide, by decide, by decide,
   C2_idempotent_on_trigger_free (str "int main(void);")
     (by decide) (by decide) (by decide)⟩

/-- Claim C3, counterexample: when the preprocessor invocation of the
header-flattening step fails, the header file is not empty; line 116 has
already written the prologue before line 117 runs the compiler, and closing
the file during the SystemExit unwind flushes it. -/
theorem C3_counterexample :
    (mainModel [str "gen", str "d3d9", str "32"]
        ⟨1, [], str "boom"⟩ ⟨0, [], []⟩ ⟨0, [], []⟩).files
      = [(str "d3d9_32.h", DEFAULT_SOURCE)]
    ∧ DEFAULT_SOURCE ≠ [] := ⟨by decide, by decide⟩

/-- Claim C3, amended: if the preprocessor invocation of the
header-flattening step exits non-zero, the captured error stream is printed
and the process terminates with status 1, but a partial header file is
written: at exit the header file exists and contains exactly the prologue
DEFAULT_SOURCE; the options file is not created. -/
theorem C3_prologue_written (g n a : Str) (r1 r2 r3 : GccResult)
    (ha : a = str "32" ∨ a = str "64") (hrc : r1.returncode ≠ 0) :
    mainModel [g, n, a] r1 r2 r3
      = ⟨.failure,
         [genMsg n a, processingMsg, gccFailMsg r1.s_err],
         [(n ++ str "_" ++ a ++ str ".h", DEFAULT_SOURCE)],
         MINGW_OPTIONS⟩ := by
  rcases ha with rfl | rfl <;> simp [mainModel, run_gcc, hrc]

/-- Claim C3 witness: concrete failing preprocessor run. -/
theorem C3_witness :
    mainModel [str "gen", str "d3d9", str "64"]
        ⟨1, [], str "boom"⟩ ⟨0, [], []⟩ ⟨0, [], []⟩
      = ⟨.failure,
         [genMsg (str "d3d9") (str "64"), processingMsg,
           gccFailMsg (str "boom")],
         [(str "d3d9" ++ str "_" ++ str "64" ++ str ".h", DEFAULT_SOURCE)],
         MINGW_OPTIONS⟩ :=
  C3_prologue_written (str "gen") (str "d3d9") (str "64")
    ⟨1, [], str "boom"⟩ ⟨0, [], []⟩ ⟨0, [], []⟩ (Or.inr rfl) (by decide)

/-- Claim C4: for both accepted architecture values the 32-bit default-macro
table is selected, because line 124 compares the architecture against the
string x64, which matches neither accepted value. -/
theorem C4_arch_table_always_32 (a : Str)
    (h : a = str "32" ∨ a = str "64") :
    selectDefaultOptions a = DEFAULT_OPTIONS_32 := by
  rcases h with rfl | rfl <;> decide

/-- Claim C4 witness: concrete evaluation at both accepted values; for the
value 64 this exhibits the latent bug. -/
theorem C4_witness :
    selectDefaultOptions (str "32") = DEFAULT_OPTIONS_32
    ∧ selectDefaultOptions (str "64") = DEFAULT_OPTIONS_32 :=
  ⟨C4_arch_table_always_32 (str "32") (Or.inl rfl),
   C4_arch_table_always_32 (str "64") (Or.inr rfl)⟩

/-- Claim C5, counterexample: after a successful option-generation run the
list object MINGW_OPTIONS points to no longer equals its initial
five-element value, because line 123 aliases it as `opts` and the following
in-place extensions grow it. -/
theorem C5_counterexample :
    (mainModel [str "gen", str "d3d9", str "32"] ⟨0, [], []⟩
      ⟨0, [],
        str "#include <...> search starts here:\n /usr/inc\nEnd of search list.\n"⟩
      ⟨0, str "#define A 1\n", []⟩).mingw ≠ MINGW_OPTIONS := by decide

/-- Claim C5, amended: the flag tables are not all left unchanged.  The
option generator mutates the MINGW_OPTIONS list object in place: `opts`
aliases it, so after a successful run its content is the entire assembled
flag list, the initial five elements followed by the selected default table,
the include flags and the define flags, and in particular it no longer
equals its initial value.  (The two default tables and GCC_FLAGS are only
ever read.) -/
theorem C5_mingw_mutated (g n a : Str) (r1 r2 r3 : GccResult)
    (incs defs : List Str)
    (ha : a = str "32" ∨ a = str "64")
    (h1 : r1.returncode = 0) (h2 : r2.returncode = 0) (h3 : r3.returncode = 0)
    (hInc : includeFlagsOf (splitLines r2.s_err) = some incs)
    (hMac : dumpDefines (splitLines r3.s_out) = (defs, true)) :
    (mainModel [g, n, a] r1 r2 r3).mingw
        = MINGW_OPTIONS ++ DEFAULT_OPTIONS_32 ++ incs ++ defs
    ∧ (mainModel [g, n, a] r1 r2 r3).mingw ≠ MINGW_OPTIONS := by
  have hsel : selectDefaultOptions a = DEFAULT_OPTIONS_32 := by
    rcases ha with rfl | rfl <;> decide
  have harch : ¬(a ≠ str "32" ∧ a ≠ str "64") := by
    rcases ha with rfl | rfl <;> simp
  have hm : (mainModel [g, n, a] r1 r2 r3).mingw
      = MINGW_OPTIONS ++ DEFAULT_OPTIONS_32 ++ incs ++ defs := by
    simp [mainModel, run_gcc, h1, h2, h3, hInc, hMac, hsel, harch]
  refine ⟨hm, ?_⟩
  rw [hm]
  intro he
  have hlen := congrArg List.length he
  simp [MINGW_OPTIONS, DEFAULT_OPTIONS_32, List.length_append] at hlen

/-- Claim C5 witness: concrete successful run exhibiting the mutated
content. -/
theorem C5_witness :
    (mainModel [str "gen", str "d3d9", str "64"] ⟨0, [], []⟩
      ⟨0, [],
        str "#include <...> search starts here:\n /usr/inc\nEnd of search list.\n"⟩
      ⟨0, str "#define A 1\n", []⟩).mingw
        = MINGW_OPTIONS ++ DEFAULT_OPTIONS_32
            ++ [str "-I/usr/inc"] ++ [str "-DA=\"1\""]
    ∧ (mainModel [str "gen", str "d3d9", str "64"] ⟨0, [], []⟩
      ⟨0, [],
        str "#include <...> search starts here:\n /usr/inc\nEnd of search list.\n"⟩
      ⟨0, str "#define A 1\n", []⟩).mingw ≠ MINGW_OPTIONS :=
  C5_mingw_mutated (str "gen") (str "d3d9") (str "64") ⟨0, [], []⟩
    ⟨0, [],
      str "#include <...> search starts here:\n /usr/inc\nEnd of search list.\n"⟩
    ⟨0, str "#define A 1\n", []⟩ [str "-I/usr/inc"] [str "-DA=\"1\""]
    (Or.inr rfl) rfl rfl rfl (by decide) (by decide)

/-- Claim C8: the include flags are exactly the lines strictly between the
first occurrence of the begin marker and the first occurrence of the end
marker in the verbose output, in order, each stripped of surrounding
whitespace and prefixed with -I; no other line contributes. -/
theorem C8_include_flags (pre mid post : List Str)
    (h1 : incBeginMark ∉ pre) (h2 : incEndMark ∉ pre) (h3 : incEndMark ∉ mid) :
    includeFlagsOf (pre ++ incBeginMark :: (mid ++ incEndMark :: post))
      = some (mid.map (fun l => str "-I" ++ pyStrip l)) := by
  have hne : incEndMark ≠ incBeginMark := by decide
  have e1 : firstIdx incBeginMark (pre ++ incBeginMark :: (mid ++ incEndMark :: post))
      = some pre.length := by
    rw [firstIdx_append_of_not_mem _ _ _ h1, firstIdx_cons_self]
    simp
  have e2 : firstIdx incEndMark (pre ++ incBeginMark :: (mid ++ incEndMark :: post))
      = some (pre.length + 1 + mid.length) := by
    have hsplit : pre ++ incBeginMark :: (mid ++ incEndMark :: post)
        = (pre ++ incBeginMark :: mid) ++ incEndMark :: post := by simp
    have hnm : incEndMark ∉ pre ++ incBeginMark :: mid := by
      simp only [List.mem_append, List.mem_cons]
      rintro (hc | hc | hc)
      · exact h2 hc
      · exact hne hc
      · exact h3 hc
    rw [hsplit, firstIdx_append_of_not_mem _ _ _ hnm, firstIdx_cons_self]
    simp only [Option.map_some']
    rw [List.length_append, List.length_cons]
    congr 1
    omega
  have e3 : (pre ++ incBeginMark :: (mid ++ incEndMark :: post)).drop (pre.length + 1)
      = mid ++ incEndMark :: post := by
    have hsplit : pre ++ incBeginMark :: (mid ++ incEndMark :: post)
        = (pre ++ [incBeginMark]) ++ (mid ++ incEndMark :: post) := by simp
    rw [hsplit]
    exact List.drop_left' (by simp)
  have e4 : pre.length + 1 + mid.length - (pre.length + 1) = mid.length := by omega
  show (match firstIdx incBeginMark (pre ++ incBeginMark :: (mid ++ incEndMark :: post)),
      firstIdx incEndMark (pre ++ incBeginMark :: (mid ++ incEndMark :: post)) with
    | some i, some j =>
      some ((((pre ++ incBeginMark :: (mid ++ incEndMark :: post)).drop (i + 1)).take
          (j - (i + 1))).map (fun l => str "-I" ++ pyStrip l))
    | _, _ => none) = some (mid.map (fun l => str "-I" ++ pyStrip l))
  rw [e1, e2]
  show some ((((pre ++ incBeginMark :: (mid ++ incEndMark :: post)).drop
      (pre.length + 1)).take (pre.length + 1 + mid.length - (pre.length + 1))).map
      (fun l => str "-I" ++ pyStrip l)) = _
  rw [e3, e4, List.take_left' rfl]

/-- Claim C8 witness: concrete verbose output with one include line. -/
theorem C8_witness :
    includeFlagsOf ([str "x"]
        ++ incBeginMark :: ([str " /usr/include "] ++ incEndMark :: [str "y"]))
      = some ([str " /usr/include "].map (fun l => str "-I" ++ pyStrip l)) :=
  C8_include_flags [str "x"] [str " /usr/include "] [str "y"]
    (by decide) (by decide) (by decide)

/-- Claim C9: any command line whose length differs from three entries,
program name plus two arguments, exits with status 1 printing the usage
line; a third entry other than 32 or 64 exits with status 1 printing the
architecture error; in both cases nothing is written. -/
theorem C9_argument_validation :
    (∀ (argv : List Str) (r1 r2 r3 : GccResult), argv.length ≠ 3 →
      mainModel argv r1 r2 r3
        = ⟨.failure, [usageMsg (argv.headD [])], [], MINGW_OPTIONS⟩)
    ∧ (∀ (g n a : Str) (r1 r2 r3 : GccResult),
        a ≠ str "32" → a ≠ str "64" →
        mainModel [g, n, a] r1 r2 r3
          = ⟨.failure, [archErrMsg], [], MINGW_OPTIONS⟩) := by
  constructor
  · intro argv r1 r2 r3 h
    simp [mainModel, h]
  · intro g n a r1 r2 r3 h32 h64
    simp [mainModel, h32, h64]

/-- Claim C9 witness: one argument, and an invalid architecture 99. -/
theorem C9_witness :
    mainModel [str "gen"] ⟨0, [], []⟩ ⟨0, [], []⟩ ⟨0, [], []⟩
      = ⟨.failure, [usageMsg ([str "gen"].headD [])], [], MINGW_OPTIONS⟩
    ∧ mainModel [str "gen", str "d3d9", str "99"]
        ⟨0, [], []⟩ ⟨0, [], []⟩ ⟨0, [], []⟩
      = ⟨.failure, [archErrMsg], [], MINGW_OPTIONS⟩ :=
  ⟨C9_argument_validation.1 [str "gen"] ⟨0, [], []⟩ ⟨0, [], []⟩ ⟨0, [], []⟩
      (by decide),
   C9_argument_validation.2 (str "gen") (str "d3d9") (str "99")
      ⟨0, [], []⟩ ⟨0, [], []⟩ ⟨0, [], []⟩ (by decide) (by decide)⟩

/-- Claim C10: every dump-macros line is searched with the macro regex and
the match object is subscripted without a None check, so one non-matching
line aborts the option generator with an unhandled exception rather than a
clean error exit; and every line of the shape `#define NAME VALUE`, NAME
free of spaces, contributes the flag -DNAME="VALUE" when the loop
completes. -/
theorem C10_macro_parsing :
    (∀ ls : List Str, (∃ l ∈ ls, findDefine l = none)
      → (dumpDefines ls).2 = false)
    ∧ (∀ (ls : List Str) (n v : Str), ' ' ∉ n →
        (defineKey ++ (n ++ ' ' :: v)) ∈ ls → (dumpDefines ls).2 = true →
        flagOfDefine n v ∈ (dumpDefines ls).1) := by
  constructor
  · intro ls h
    induction ls with
    | nil => simp at h
    | cons x ls' ih =>
      rcases h with ⟨l, hl, hnone⟩
      rw [dumpDefines_cons]
      rcases List.mem_cons.1 hl with rfl | hmem
      · rw [hnone]
      · cases hfd : findDefine x with
        | none => rfl
        | some nv =>
          cases nv with
          | mk n1 v1 => exact ih ⟨l, hmem, hnone⟩
  · intro ls n v hn hmem hok
    induction ls with
    | nil => simp at hmem
    | cons x ls' ih =>
      rw [dumpDefines_cons] at hok ⊢
      rcases List.mem_cons.1 hmem with rfl | hmem'
      · rw [findDefine_of_shape n v hn]
        simp
      · cases hfd : findDefine x with
        | none =>
          rw [hfd] at hok
          exact absurd hok Bool.false_ne_true
        | some nv =>
          cases nv with
          | mk n2 v2 =>
            rw [hfd] at hok
            exact List.mem_cons_of_mem _ (ih hmem' hok)

/-- Claim C10 witness: an empty line crashes the loop; a well-formed define
line contributes its flag. -/
theorem C10_witness :
    (dumpDefines [[], str "#define A 1"]).2 = false
    ∧ flagOfDefine (str "A") (str "1")
        ∈ (dumpDefines [defineKey ++ (str "A" ++ ' ' :: str "1")]).1 :=
  ⟨C10_macro_parsing.1 [[], str "#define A 1"] ⟨[], by simp, by decide⟩,
   C10_macro_parsing.2 [defineKey ++ (str "A" ++ ' ' :: str "1")]
     (str "A") (str "1") (by decide) (by simp) (by decide)⟩

/-- Claim C6, counterexample: an `__int128` that sits inside an
inline-assembly statement is swallowed by the first substitution, which runs
before the `__int128` rule, so the output carries no `__int128` marker. -/
theorem C6_counterexample :
    containsLit int128Pat (str "__asm__ (__int128);") = true
    ∧ containsLit int128Repl (process_source (str "__asm__ (__int128);"))
        = false := ⟨by decide, by decide⟩

/-- Claim C6, amended: for every input in which the inline-assembly trigger
`__asm__ ` does not occur, every occurrence of `__int128` is rewritten, and
the output contains the replacement `long /* GHIDRA: Removed __int128 */`;
without that restriction the first substitution can delete the occurrence,
as the counterexample shows. -/
theorem C6_int128_marked (s : Str)
    (hasm : containsLit asmKey s = false)
    (h : containsLit int128Pat s = true) :
    containsLit int128Repl (process_source s) = true := by
  have e1 : subAsm s = s := subAsmF_id s.length s hasm
  have h2 : containsLit int128Repl (replaceLitF int128Pat int128Repl s.length s)
      = true := by
    have key := replace_marks int128Pat int128Repl [] (by decide)
      (fun i hi w => by simp at hi)
      (fun i h0 hl w => by
        have h8 : int128Pat.length = 8 := by decide
        rw [h8] at hl
        interval_cases i <;> rfl)
      s.length s (le_refl _) (by simpa using h)
    simpa using key
  have h3 := replace_preserves f16Pat f16Repl int128Repl (by decide) (by decide)
    (fun i hi w => by
      have h35 : int128Repl.length = 35 := by decide
      rw [h35] at hi
      interval_cases i <;> rfl)
    (fun i h0 hl w => by
      have h5 : f16Pat.length = 5 := by decide
      rw [h5] at hl
      interval_cases i <;> rfl)
    (replaceLitF int128Pat int128Repl s.length s).length
    (replaceLitF int128Pat int128Repl s.length s) (le_refl _) h2
  show containsLit int128Repl
    (replaceLit f16Pat f16Repl (replaceLit int128Pat int128Repl (subAsm s))) = true
  rw [e1]
  exact h3

/-- Claim C6 witness: the concrete input of the specification example. -/
theorem C6_witness :
    containsLit asmKey (str "__int128 x;") = false
    ∧ containsLit int128Pat (str "__int128 x;") = true
    ∧ containsLit int128Repl (process_source (str "__int128 x;")) = true :=
  ⟨by decide, by decide,
   C6_int128_marked (str "__int128 x;") (by decide) (by decide)⟩

/-- Claim C7, counterexample: a literal `1.0f16` inside an inline-assembly
statement is swallowed by the first substitution, so the output carries no
f16 marker. -/
theorem C7_counterexample :
    containsLit (str "1.0f16") (str "__asm__ (1.0f16);") = true
    ∧ containsLit (str "1.0f /* GHIDRA: Removed f16 */")
        (process_source (str "__asm__ (1.0f16);")) = false :=
  ⟨by decide, by decide⟩

/-- Claim C7, amended: for every input in which the inline-assembly trigger
`__asm__ ` does not occur, every occurrence of `1.0f16` is rewritten to
`1.0f /* GHIDRA: Removed f16 */` and the output contains that text; without
the restriction the first substitution can delete the occurrence, as the
counterexample shows. -/
theorem C7_f16_marked (s : Str)
    (hasm : containsLit asmKey s = false)
    (h : containsLit (str "1.0f16") s = true) :
    containsLit (str "1.0f /* GHIDRA: Removed f16 */") (process_source s)
      = true := by
  have e1 : subAsm s = s := subAsmF_id s.length s hasm
  have h2 : containsLit (str "1.0f16")
      (replaceLitF int128Pat int128Repl s.length s) = true := by
    refine replace_preserves int128Pat int128Repl (str "1.0f16")
      (by decide) (by decide)
      (fun i hi w => ?_) (fun i h0 hl w => ?_) s.length s (le_refl _) h
    · have h6 : (str "1.0f16").length = 6 := by decide
      rw [h6] at hi
      interval_cases i <;> rfl
    · have h8 : int128Pat.length = 8 := by decide
      rw [h8] at hl
      interval_cases i <;> rfl
  have h3 := replace_marks f16Pat f16Repl ['1'] (by decide)
    (fun i hi w => by
      have hone : (['1'] : Str).length = 1 := rfl
      rw [hone] at hi
      interval_cases i
      rfl)
    (fun i h0 hl w => by
      have h5 : f16Pat.length = 5 := by decide
      rw [h5] at hl
      interval_cases i <;> rfl)
    (replaceLitF int128Pat int128Repl s.length s).length
    (replaceLitF int128Pat int128Repl s.length s) (le_refl _) h2
  show containsLit (str "1.0f /* GHIDRA: Removed f16 */")
    (replaceLit f16Pat f16Repl (replaceLit int128Pat int128Repl (subAsm s))) = true
  rw [e1]
  exact h3

/-- Claim C7 witness: the concrete input of the specification example. -/
theorem C7_witness :
    containsLit asmKey (str "float h = 1.0f16;") = false
    ∧ containsLit (str "1.0f16") (str "float h = 1.0f16;") = true
    ∧ containsLit (str "1.0f /* GHIDRA: Removed f16 */")
        (process_source (str "float h = 1.0f16;")) = true :=
  ⟨by decide, by decide,
   C7_f16_marked (str "float h = 1.0f16;") (by decide) (by decide)⟩

/-- Claim C1, counterexample: the statement `__asm__("nop");` is left
entirely unchanged, and no marker comment appears, because the regex at
line 82 demands a space between the keyword and the argument list. -/
theorem C1_counterexample :
    process_source (str "__asm__(\"nop\");") = str "__asm__(\"nop\");"
    ∧ containsLit (str "/* GHIDRA: Removed __asm__ statement */")
        (process_source (str "__asm__(\"nop\");")) = false :=
  ⟨by decide, by decide⟩

/-- Claim C1, amended: the inline-assembly rule fires on the spaced form
`__asm__ ("nop");`.  When such a statement stands on a line of its own, with
the surrounding text free of the other rewrite triggers (no `__asm__`
occurrence, no `__int128`, no `.0f16`), process_source replaces exactly the
statement with the inert no-op marker statement and leaves every character
outside it unchanged.  The line-of-its-own and trigger-freedom restrictions
are necessary: the star in the pattern is greedy within a line, and the two
later substitutions touch matching text anywhere. -/
theorem C1_spaced_asm_replaced (a b : Str)
    (hA : a = [] ∨ ∃ a2, a = a2 ++ ['\n'])
    (hB : b = [] ∨ ∃ b2, b = '\n' :: b2)
    (ha1 : containsLit (str "__asm__") a = false)
    (hb1 : containsLit asmKey b = false)
    (ha2 : containsLit int128Pat a = false)
    (hb2 : containsLit int128Pat b = false)
    (ha3 : containsLit f16Pat a = false)
    (hb3 : containsLit f16Pat b = false) :
    process_source (a ++ str "__asm__ (\"nop\");" ++ b) = a ++ asmRepl ++ b := by
  have h8 : asmKey.length = 8 := by decide
  have H : ∀ i, i < a.length →
      litMatch asmKey ((a ++ (str "__asm__ (\"nop\");" ++ b)).drop i) = false := by
    intro i hi
    rw [List.drop_append_of_le_length (Nat.le_of_lt hi)]
    by_contra hcon
    rw [Bool.not_eq_false] at hcon
    by_cases hlen : asmKey.length ≤ (a.drop i).length
    · rw [litMatch_append_left asmKey (a.drop i) _ hlen] at hcon
      have h7 : litMatch (str "__asm__") (a.drop i) = true := by
        have hsplit : asmKey = str "__asm__" ++ [' '] := rfl
        rw [hsplit] at hcon
        exact litMatch_of_append _ _ _ hcon
      have hfound := containsLit_of_drop (str "__asm__") a i h7
      rw [ha1] at hfound
      exact Bool.false_ne_true hfound
    · push_neg at hlen
      rcases hA with rfl | ⟨a2, rfl⟩
      · simp at hi
      · have hia : i ≤ a2.length := by
          simp only [List.length_append, List.length_cons, List.length_nil] at hi
          omega
        rw [List.drop_append_of_le_length hia] at hcon
        obtain ⟨t, ht⟩ := (litMatch_iff _ _).1 hcon
        rw [List.append_assoc, List.singleton_append] at ht
        have hlt : (a2.drop i).length < asmKey.length := by
          have hl2 : ((a2 ++ ['\n']).drop i).length < asmKey.length := hlen
          rw [List.drop_append_of_le_length hia] at hl2
          simp only [List.length_append, List.length_cons, List.length_nil] at hl2
          rw [h8] at hl2 ⊢
          omega
        have hmem := mem_of_prefix_long '\n' (a2.drop i)
          (str "__asm__ (\"nop\");" ++ b) asmKey t ht hlt
        exact absurd hmem (by decide)
  have hmid : matchMid (str "(\"nop\");" ++ b) = some 8 := by
    rcases hB with rfl | ⟨b2, rfl⟩
    · rfl
    · rfl
  have hstep : ∀ f : Nat,
      subAsmF (f + 1) (str "__asm__ (\"nop\");" ++ b) = asmRepl ++ subAsmF f b := by
    intro f
    have hkey : litMatch asmKey ('_' :: (str "_asm__ (\"nop\");" ++ b)) = true :=
      litMatch_append_self asmKey (str "(\"nop\");" ++ b)
    show subAsmF (f + 1) ('_' :: (str "_asm__ (\"nop\");" ++ b))
        = asmRepl ++ subAsmF f b
    rw [subAsmF_succ, if_pos hkey]
    have hd7 : (str "_asm__ (\"nop\");" ++ b).drop 7 = str "(\"nop\");" ++ b := rfl
    rw [hd7, hmid]
    show asmRepl ++ subAsmF f ((str "_asm__ (\"nop\");" ++ b).drop (7 + 8))
        = asmRepl ++ subAsmF f b
    have hd15 : (str "_asm__ (\"nop\");" ++ b).drop (7 + 8) = b := rfl
    rw [hd15]
  have hs1 : subAsm (a ++ str "__asm__ (\"nop\");" ++ b) = a ++ asmRepl ++ b := by
    show subAsmF (a ++ str "__asm__ (\"nop\");" ++ b).length
        (a ++ str "__asm__ (\"nop\");" ++ b) = a ++ asmRepl ++ b
    rw [List.append_assoc]
    rw [subAsmF_skip a (str "__asm__ (\"nop\");" ++ b)
      (a ++ (str "__asm__ (\"nop\");" ++ b)).length (le_refl _) H]
    have hfl : (a ++ (str "__asm__ (\"nop\");" ++ b)).length - a.length
        = (str "__asm__ (\"nop\");" ++ b).length := by
      rw [List.length_append]
      omega
    rw [hfl]
    have h16 : (str "__asm__ (\"nop\");" ++ b).length = (15 + b.length) + 1 := by
      rw [List.length_append]
      have hsl : (str "__asm__ (\"nop\");").length = 16 := by decide
      omega
    rw [h16, hstep (15 + b.length), subAsmF_id (15 + b.length) b hb1,
      ← List.append_assoc]
  have hnc2 : containsLit int128Pat (a ++ asmRepl ++ b) = false :=
    notContains_glue int128Pat (by decide) a asmRepl b hA hB ha2 (by decide) hb2
  have hnc3 : containsLit f16Pat (a ++ asmRepl ++ b) = false :=
    notContains_glue f16Pat (by decide) a asmRepl b hA hB ha3 (by decide) hb3
  show replaceLit f16Pat f16Repl
      (replaceLit int128Pat int128Repl
        (subAsm (a ++ str "__asm__ (\"nop\");" ++ b)))
    = a ++ asmRepl ++ b
  rw [hs1,
    show replaceLit int128Pat int128Repl (a ++ asmRepl ++ b) = a ++ asmRepl ++ b
      from replaceLitF_id int128Pat int128Repl _ _ hnc2,
    show replaceLit f16Pat f16Repl (a ++ asmRepl ++ b) = a ++ asmRepl ++ b
      from replaceLitF_id f16Pat f16Repl _ _ hnc3]

/-- Claim C1 witness: a spaced inline-assembly statement on its own line,
with one line of context on each side. -/
theorem C1_witness :
    process_source (str "x\n" ++ str "__asm__ (\"nop\");" ++ str "\ny")
      = str "x\n" ++ asmRepl ++ str "\ny" :=
  C1_spaced_asm_replaced (str "x\n") (str "\ny")
    (Or.inr ⟨str "x", by decide⟩) (Or.inr ⟨str "y", by decide⟩)
    (by decide) (by decide) (by decide) (by decide) (by decide) (by decide)
